import Mathlib

/-!
Verification of the grammar coordination layer of the parser crate
(`crates/parser/src/grammar.rs`): the incremental-reparse dispatch table,
the shared grammar primitives (`opt_visibility`, `abi`, `error_block`) and
the entry-point dispatch, over a shallow embedding of the token cursor and
the event/marker algebra.

The token cursor and the event log are modelled from the specification
(sections 4.1 and 4.2): their implementation lives in
`crates/parser/src/parser.rs` and `event.rs`, which are not part of the
verified sources.  The large catalogue of per-construct grammar rules
(`paths::use_path`, `items::mod_contents`, `expressions::stmt`, ...) is
treated as opaque: each rule is a function parameter, constrained only by
the contract the specification fixes for every rule.
-/

/-- The syntax kinds the verified fragment of the grammar mentions: token
kinds produced by the lexer and node kinds assigned by the grammar.  The
real enumeration is much larger; every extra kind falls into the default
arm of each `match` below, exactly as here.  `COLON2` is the composite
path-separator kind: it never occurs in the token stream (the lexer emits
two adjacent `COLON` tokens), it is only used as a lookahead query. -/
inductive SyntaxKind
  | EOF
  | SHEBANG
  | PUB_KW
  | CRATE_KW
  | SELF_KW
  | SUPER_KW
  | IN_KW
  | EXTERN_KW
  | AS_KW
  | IDENT
  | INT_NUMBER
  | STRING
  | LIFETIME_IDENT
  | UNDERSCORE
  | L_PAREN
  | R_PAREN
  | L_CURLY
  | R_CURLY
  | COLON
  | COLON2
  | SEMICOLON
  | ERROR
  | VISIBILITY
  | RENAME
  | ABI
  | RET_TYPE
  | NAME
  | NAME_REF
  | LIFETIME
  | SOURCE_FILE
  | MACRO_STMTS
  | MACRO_ITEMS
  | BLOCK_EXPR
  | RECORD_FIELD_LIST
  | RECORD_EXPR_FIELD_LIST
  | VARIANT_LIST
  | MATCH_ARM_LIST
  | USE_TREE_LIST
  | EXTERN_ITEM_LIST
  | TOKEN_TREE
  | ASSOC_ITEM_LIST
  | ITEM_LIST
  | IMPL
  | TRAIT
  deriving DecidableEq, Repr

/-- Labels for the grammar rules the reparse table can return.  The source
returns function pointers into the (opaque) grammar submodules; only their
identity matters for the dispatch table. -/
inductive GrammarRule
  | block_expr
  | record_field_list
  | record_expr_field_list
  | variant_list
  | match_arm_list
  | use_tree_list
  | extern_item_list
  | token_tree
  | assoc_item_list
  | item_list
  deriving DecidableEq, Repr

/-- `reparser` from `grammar.rs` lines 120-142: the pure lookup from
(node kind, first structural child kind, parent kind) to the grammar rule
that can regenerate the node in isolation.  `first_child?` / `parent?` in
the source return `None` from the whole function when the option is empty,
which coincides with the fall-through result `None`. -/
def reparser (node : SyntaxKind) (first_child : Option SyntaxKind)
    (parent : Option SyntaxKind) : Option GrammarRule :=
  match node with
  | .BLOCK_EXPR => some .block_expr
  | .RECORD_FIELD_LIST => some .record_field_list
  | .RECORD_EXPR_FIELD_LIST => some .record_expr_field_list
  | .VARIANT_LIST => some .variant_list
  | .MATCH_ARM_LIST => some .match_arm_list
  | .USE_TREE_LIST => some .use_tree_list
  | .EXTERN_ITEM_LIST => some .extern_item_list
  | .TOKEN_TREE =>
    match first_child with
    | some .L_CURLY => some .token_tree
    | _ => none
  | .ASSOC_ITEM_LIST =>
    match parent with
    | some .IMPL => some .assoc_item_list
    | some .TRAIT => some .assoc_item_list
    | _ => none
  | .ITEM_LIST => some .item_list
  | _ => none

/-- The seven node kinds that the specification (sections 4.5 and 8.4)
names as mapping unconditionally to a grammar rule. -/
def specUnconditionalKinds : List SyntaxKind :=
  [.BLOCK_EXPR, .RECORD_FIELD_LIST, .VARIANT_LIST, .MATCH_ARM_LIST,
   .USE_TREE_LIST, .EXTERN_ITEM_LIST, .ITEM_LIST]

/-- The full reparse table as the specification lists it: the seven
unconditional kinds plus the two context-dependent ones. -/
def specTableKinds : List SyntaxKind :=
  specUnconditionalKinds ++ [.ASSOC_ITEM_LIST, .TOKEN_TREE]

/-- The reparse-table exactness claim exactly as stated: the seven listed
kinds are unconditional, and every kind absent from the table yields no
match. -/
def reparseTableExactAsStated : Prop :=
  (∀ node ∈ specUnconditionalKinds, ∀ first_child parent : Option SyntaxKind,
    (reparser node first_child parent).isSome) ∧
  (∀ node : SyntaxKind, node ∉ specTableKinds →
    ∀ first_child parent : Option SyntaxKind,
      reparser node first_child parent = none)

/-- The unconditional kinds as the code has them: the record-expression
field list is an eighth unconditional entry of the table. -/
def codeUnconditionalKinds : List SyntaxKind :=
  [.BLOCK_EXPR, .RECORD_FIELD_LIST, .RECORD_EXPR_FIELD_LIST, .VARIANT_LIST,
   .MATCH_ARM_LIST, .USE_TREE_LIST, .EXTERN_ITEM_LIST, .ITEM_LIST]

/-- C1: for an associated-item list, `reparser` returns a rule iff the
parent is a trait definition or an implementation (absent parent included
in "no"); for a token tree, it returns a rule iff the first structural
child is the brace opener (absent first child included in "no"). -/
theorem reparser_context_conditions
    (first_child parent : Option SyntaxKind) :
    ((reparser .ASSOC_ITEM_LIST first_child parent).isSome ↔
      parent = some .TRAIT ∨ parent = some .IMPL) ∧
    ((reparser .TOKEN_TREE first_child parent).isSome ↔
      first_child = some .L_CURLY) := by
  constructor
  · rcases parent with _ | k
    · simp [reparser]
    · cases k <;> simp [reparser]
  · rcases first_child with _ | k
    · simp [reparser]
    · cases k <;> simp [reparser]

/-- C2, counterexample: the claim "a rule is returned unconditionally
exactly for {block, field-decl-list, variant-list, match-arm-list,
use-tree-list, extern-item-list, module-item-list}, and every kind absent
from the table returns none" is false: the record-expression field list
kind, absent from that table, maps unconditionally to a rule. -/
theorem reparse_table_as_stated_false : ¬ reparseTableExactAsStated := by
  intro h
  have h1 := h.2 .RECORD_EXPR_FIELD_LIST (by decide) none none
  simp [reparser] at h1

/-- C2, amended: with the record-expression field list added to the
unconditional set, the table is exact: `reparser` returns a rule iff the
node kind is one of the eight unconditional kinds, or is an
associated-item list whose parent is a trait or an implementation, or is a
token tree whose first child is the brace opener. -/
theorem reparser_table_amended (node : SyntaxKind)
    (first_child parent : Option SyntaxKind) :
    (reparser node first_child parent).isSome ↔
      (node ∈ codeUnconditionalKinds ∨
       (node = .ASSOC_ITEM_LIST ∧ (parent = some .TRAIT ∨ parent = some .IMPL)) ∨
       (node = .TOKEN_TREE ∧ first_child = some .L_CURLY)) := by
  cases node <;>
    simp only [reparser, codeUnconditionalKinds, List.mem_cons,
      List.not_mem_nil, or_false, false_or, false_and, and_false, true_and,
      Option.isSome_some, Option.isSome_none, reduceCtorEq, iff_true,
      iff_false, not_or, true_or, or_true] <;>
    try trivial
  case TOKEN_TREE =>
    rcases first_child with _ | k
    · simp [reparser]
    · cases k <;> simp [reparser]
  case ASSOC_ITEM_LIST =>
    rcases parent with _ | k
    · simp [reparser]
    · cases k <;> simp [reparser]

/-- One entry of the event log (specification section 3): an open-node
event (a placeholder while its kind is unassigned), a close-node event, a
consumed token, or a recoverable-error annotation. -/
inductive Event
  | start (kind : Option SyntaxKind)
  | finish
  | token (kind : SyntaxKind)
  | error (message : String)
  deriving DecidableEq, Repr

/-- Modelled from the spec: the shared parser state of sections 4.1-4.2
(`crates/parser/src/parser.rs` is not among the verified sources) — the
immutable token sequence, the cursor position, and the append-only event
log.  End-of-input is the sentinel kind `EOF`, returned by every
out-of-range lookahead. -/
structure Parser where
  tokens : List SyntaxKind
  pos : Nat
  events : List Event
  deriving DecidableEq, Repr

/-- Modelled from the spec: bounded lookahead `nth(n)`. -/
def Parser.nth (p : Parser) (n : Nat) : SyntaxKind :=
  p.tokens.getD (p.pos + n) .EOF

/-- Modelled from the spec: the current token kind. -/
def Parser.current (p : Parser) : SyntaxKind :=
  p.nth 0

/-- Modelled from the spec: `nth_at(n, kind)`.  The composite
path-separator kind `COLON2` is recognized as two adjacent single-colon
tokens; every other kind is a plain comparison. -/
def Parser.nth_at (p : Parser) (n : Nat) (kind : SyntaxKind) : Bool :=
  match kind with
  | .COLON2 => decide (p.nth n = .COLON) && decide (p.nth (n + 1) = .COLON)
  | _ => decide (p.nth n = kind)

/-- Modelled from the spec: `at(kind)`, lookahead at offset zero.  (`at`
is reserved here, hence the apostrophe.) -/
def Parser.at' (p : Parser) (kind : SyntaxKind) : Bool :=
  p.nth_at 0 kind

/-- Modelled from the spec: `bump(kind)` consumes the current token,
appending one consume-token event.  The source asserts that the current
token has the requested kind; every call below sits under a guard that
establishes exactly that. -/
def Parser.bump (p : Parser) (kind : SyntaxKind) : Parser :=
  { p with pos := p.pos + 1, events := p.events ++ [.token kind] }

/-- Modelled from the spec: `eat(kind)` consumes the current token iff it
matches, and reports whether it did. -/
def Parser.eat (p : Parser) (kind : SyntaxKind) : Bool × Parser :=
  if p.at' kind then (true, p.bump kind) else (false, p)

/-- Modelled from the spec: `error(message)` records a recoverable error
at the current position, consuming nothing. -/
def Parser.error (p : Parser) (message : String) : Parser :=
  { p with events := p.events ++ [.error message] }

/-- Modelled from the spec: `expect(kind)` consumes the token if it
matches, else records an error without consuming. -/
def Parser.expect (p : Parser) (kind : SyntaxKind) : Bool × Parser :=
  if p.at' kind then (true, p.bump kind) else (false, p.error "expected token")

/-- A marker: the index of a placeholder open-node event whose kind is not
yet assigned (specification section 3). -/
structure Marker where
  idx : Nat
  deriving DecidableEq, Repr

/-- Modelled from the spec: `start()` appends a placeholder open-node
event and hands back its index as a `Marker`. -/
def Parser.start (p : Parser) : Marker × Parser :=
  (⟨p.events.length⟩, { p with events := p.events ++ [.start none] })

/-- Modelled from the spec: `Marker.complete(kind)` assigns `kind` to the
placeholder and appends the matching close-node event. -/
def Marker.complete (m : Marker) (p : Parser) (kind : SyntaxKind) : Parser :=
  { p with events := (p.events.set m.idx (.start (some kind))) ++ [.finish] }

/-- `opt_visibility` from `grammar.rs` lines 156-216, with the opaque
`paths::use_path` rule as a parameter.  The `match p.nth(1)` of the source
with its shared guard `p.nth(2) != T![:]` is rendered as the equivalent
conditional chain: the scope-keyword-or-identifier arm fires only when the
guard holds, otherwise control falls through to the `in` arm and then to
the do-nothing default. -/
def opt_visibility (use_path : Parser → Parser) (p : Parser)
    (in_tuple_field : Bool) : Bool × Parser :=
  if p.current = .PUB_KW then
    let (m, p) := p.start
    let p := p.bump .PUB_KW
    let p :=
      if p.at' .L_PAREN then
        if (p.nth 1 = .CRATE_KW ∨ p.nth 1 = .SELF_KW ∨ p.nth 1 = .SUPER_KW ∨
            p.nth 1 = .IDENT) ∧ p.nth 2 ≠ .COLON then
          -- If we are in a tuple struct, then the parens following `pub`
          -- might be a tuple field, not part of the visibility.  So in
          -- that case we don't want to consume an identifier.
          if ¬ (in_tuple_field = true ∧ p.nth 1 = .IDENT) then
            let p := p.bump .L_PAREN
            let p := use_path p
            (p.expect .R_PAREN).2
          else p
        else if p.nth 1 = .IN_KW then
          let p := p.bump .L_PAREN
          let p := p.bump .IN_KW
          let p := use_path p
          (p.expect .R_PAREN).2
        else p
      else p
    (true, m.complete p .VISIBILITY)
  else if p.current = .CRATE_KW then
    if p.nth_at 1 .COLON2 then (false, p)
    else
      let (m, p) := p.start
      let p := p.bump .CRATE_KW
      (true, m.complete p .VISIBILITY)
  else (false, p)

/-- Setting the element right after a prefix of known length replaces the
head of the remaining tail; this is how `Marker.complete` retroactively
assigns the kind of the placeholder it appended earlier. -/
theorem list_set_append_length {α : Type} (l1 l2 : List α) (x y : α) :
    (l1 ++ x :: l2).set l1.length y = l1 ++ y :: l2 := by
  induction l1 with
  | nil => rfl
  | cons a t ih => simp [List.set, ih]

/-- C3: on a stream beginning `pub ( IDENT`, parsed with
`in_tuple_field = true`, `opt_visibility` returns true, completes a
VISIBILITY node covering only the `pub` keyword (the event delta is
exactly open-VISIBILITY, consume-`pub`, close), and leaves the
parenthesized region entirely unconsumed (the cursor advances by one
token only).  This holds whatever follows the identifier — in particular
when it is not followed by a path-separator token, as the claim
hypothesises. -/
theorem opt_visibility_tuple_field_skips_parens (use_path : Parser → Parser)
    (rest : List SyntaxKind) (evs : List Event) :
    opt_visibility use_path
        ⟨.PUB_KW :: .L_PAREN :: .IDENT :: rest, 0, evs⟩ true =
      (true, ⟨.PUB_KW :: .L_PAREN :: .IDENT :: rest, 1,
        evs ++ [.start (some .VISIBILITY), .token .PUB_KW, .finish]⟩) := by
  by_cases h3 : rest.getD 0 .EOF = .COLON <;>
    simp [opt_visibility, Parser.start, Parser.bump, Parser.at', Parser.nth_at,
      Parser.current, Parser.nth, Marker.complete, h3, list_set_append_length]

/-- C4, counterexample: on the exact stream `pub ( a :: b )` with
`in_tuple_field = false`, `opt_visibility` returns true but consumes only
the `pub` keyword: the cursor stops at position 1 (the opening
parenthesis) and the completed VISIBILITY node contains nothing but
`pub` — the parenthesized path is not part of the visibility, contrary to
the claim. -/
theorem pub_parens_path_claim_false :
    (opt_visibility (fun q => q)
        ⟨[.PUB_KW, .L_PAREN, .IDENT, .COLON, .COLON, .IDENT, .R_PAREN],
         0, []⟩ false) =
      (true, ⟨[.PUB_KW, .L_PAREN, .IDENT, .COLON, .COLON, .IDENT, .R_PAREN],
        1, [.start (some .VISIBILITY), .token .PUB_KW, .finish]⟩) := by
  decide

/-- C4, amended: on a stream beginning `pub (` followed by an identifier
that is immediately followed by a path-separator token (i.e. an explicit
multi-segment module path such as `pub ( a :: b )`), with
`in_tuple_field = false`, `opt_visibility` returns true but does NOT
consume the parenthesized region: the VISIBILITY node covers only the
`pub` keyword and the cursor advances by exactly one token (an explicit
module path is consumed as a scope qualifier only after the `in`
keyword). -/
theorem pub_parens_multi_segment_not_consumed (use_path : Parser → Parser)
    (rest : List SyntaxKind) (evs : List Event) :
    opt_visibility use_path
        ⟨.PUB_KW :: .L_PAREN :: .IDENT :: .COLON :: .COLON :: rest, 0, evs⟩
        false =
      (true, ⟨.PUB_KW :: .L_PAREN :: .IDENT :: .COLON :: .COLON :: rest, 1,
        evs ++ [.start (some .VISIBILITY), .token .PUB_KW, .finish]⟩) := by
  simp [opt_visibility, Parser.start, Parser.bump, Parser.at', Parser.nth_at,
    Parser.current, Parser.nth, Marker.complete, list_set_append_length]

/-- C5: on a stream beginning with the scope keyword `crate` immediately
followed by a path-separator token (two adjacent colons), and with either
value of `in_tuple_field`, `opt_visibility` returns false, consumes zero
tokens and appends zero events: the state is returned unchanged. -/
theorem crate_followed_by_path_sep_rejected (use_path : Parser → Parser)
    (in_tuple_field : Bool) (rest : List SyntaxKind) (evs : List Event) :
    opt_visibility use_path ⟨.CRATE_KW :: .COLON :: .COLON :: rest, 0, evs⟩
        in_tuple_field =
      (false, ⟨.CRATE_KW :: .COLON :: .COLON :: rest, 0, evs⟩) := by
  simp [opt_visibility, Parser.current, Parser.nth, Parser.nth_at]

/-- C10: whenever `opt_visibility` answers false — on any input state, for
either value of `in_tuple_field` and whatever the opaque path rule does —
the parser state is returned completely unchanged: zero tokens consumed
and zero events (error events included) appended. -/
theorem opt_visibility_false_frame (use_path : Parser → Parser) (p : Parser)
    (in_tuple_field : Bool)
    (h : (opt_visibility use_path p in_tuple_field).1 = false) :
    (opt_visibility use_path p in_tuple_field).2 = p := by
  unfold opt_visibility at h ⊢
  by_cases hc : p.current = .PUB_KW
  · rw [if_pos hc] at h
    simp [Parser.start] at h
  · rw [if_neg hc] at h ⊢
    by_cases hk : p.current = .CRATE_KW
    · rw [if_pos hk] at h ⊢
      by_cases hq : p.nth_at 1 .COLON2 = true
      · rw [if_pos hq]
      · rw [if_neg hq] at h
        simp [Parser.start] at h
    · rw [if_neg hk]

/-- Witness for C10: a state whose current token opens no visibility
(a bare identifier) makes `opt_visibility` answer false, and the theorem
then yields the unchanged state. -/
theorem opt_visibility_false_frame_witness :
    (opt_visibility (fun q => q) ⟨[.IDENT], 0, []⟩ false).1 = false ∧
    (opt_visibility (fun q => q) ⟨[.IDENT], 0, []⟩ false).2 =
      ⟨[.IDENT], 0, []⟩ :=
  ⟨by decide,
   opt_visibility_false_frame (fun q => q) ⟨[.IDENT], 0, []⟩ false (by decide)⟩

/-- `abi` from `grammar.rs` lines 229-235.  The source opens with
`assert!(p.at(T![extern]))`; the assertion is modelled as the `none`
result, so the claimed theorem shows the assertion never fires under the
documented precondition. -/
def abi (p : Parser) : Option Parser :=
  if p.at' .EXTERN_KW then
    let (m, p) := p.start
    let p := p.bump .EXTERN_KW
    let p := (p.eat .STRING).2
    some (m.complete p .ABI)
  else none

/-- C9: on a stream whose current token is the `extern` keyword the
assertion of `abi` never fires; the keyword is consumed, one
string-literal token is consumed iff the next token is a string literal,
and exactly the consumed tokens are wrapped in a single ABI node.  On a
state violating the precondition the assertion fires (`none`). -/
theorem abi_spec (rest : List SyntaxKind) (evs : List Event) :
    (abi ⟨.EXTERN_KW :: rest, 0, evs⟩ =
      some ⟨.EXTERN_KW :: rest,
        if rest.getD 0 .EOF = .STRING then 2 else 1,
        evs ++ [.start (some .ABI), .token .EXTERN_KW] ++
          (if rest.getD 0 .EOF = .STRING then [Event.token .STRING] else []) ++
          [.finish]⟩) ∧
    ∀ p : Parser, ¬ p.at' .EXTERN_KW = true → abi p = none := by
  constructor
  · by_cases hs : rest.getD 0 .EOF = .STRING <;>
      rw [show rest.getD 0 .EOF = rest[0]?.getD .EOF from by simp [List.getD]]
        at hs <;>
      simp [abi, Parser.start, Parser.bump, Parser.eat, Parser.at',
        Parser.nth_at, Parser.nth, Marker.complete, hs, list_set_append_length,
        List.getD]
  · intro p hp
    unfold abi
    rw [if_neg hp]

/-- Witness for C9: `extern "C"`-style input gives the two-token ABI node,
and a state not at `extern` makes the assertion fire. -/
theorem abi_spec_witness :
    abi ⟨[.EXTERN_KW, .STRING], 0, []⟩ =
      some ⟨[.EXTERN_KW, .STRING], 2,
        [.start (some .ABI), .token .EXTERN_KW, .token .STRING, .finish]⟩ ∧
    abi ⟨[.IDENT], 0, []⟩ = none := by
  constructor
  · have h := (abi_spec [.STRING] []).1
    simpa using h
  · exact (abi_spec [] []).2 ⟨[.IDENT], 0, []⟩ (by decide)

/-- The nesting depth after replaying an event segment from a given
open-node depth; `none` when a close-node event occurs at depth zero,
i.e. the segment would close a node it did not open. -/
def nestDepth : List Event → Nat → Option Nat
  | [], d => some d
  | Event.start _ :: rest, d => nestDepth rest (d + 1)
  | Event.finish :: _, 0 => none
  | Event.finish :: rest, d + 1 => nestDepth rest d
  | Event.token _ :: rest, d => nestDepth rest d
  | Event.error _ :: rest, d => nestDepth rest d

/-- A balanced event segment: it opens exactly as many nodes as it closes
and never closes a node opened outside it. -/
def balanced (l : List Event) : Bool :=
  nestDepth l 0 == some 0

theorem nestDepth_append (a b : List Event) (d : Nat) :
    nestDepth (a ++ b) d = (nestDepth a d).bind fun d' => nestDepth b d' := by
  induction a generalizing d with
  | nil => rfl
  | cons e rest ih =>
    cases e with
    | start k => simp [nestDepth, ih]
    | finish =>
      cases d with
      | zero => rfl
      | succ d => simp [nestDepth, ih]
    | token k => simp [nestDepth, ih]
    | error m => simp [nestDepth, ih]

theorem balanced_append (a b : List Event) (ha : balanced a = true)
    (hb : balanced b = true) : balanced (a ++ b) = true := by
  simp only [balanced, beq_iff_eq] at *
  rw [nestDepth_append, ha]
  simpa using hb

theorem balanced_cons_token (k : SyntaxKind) (l : List Event) :
    balanced (Event.token k :: l) = balanced l := rfl

/-- The state `error_block` hands to the interior grammar: the error
recorded and the opening brace consumed. -/
def error_block_inner (p : Parser) (message : String) : Parser :=
  ((p.start).2.error message).bump .L_CURLY

/-- `error_block` from `grammar.rs` lines 287-295, with the opaque
`expressions::expr_block_contents` rule as a parameter.  The opening
`assert!(p.at(T!['{']))` is modelled as the `none` result. -/
def error_block (expr_block_contents : Parser → Parser) (p : Parser)
    (message : String) : Option Parser :=
  if p.at' .L_CURLY then
    let (m, p) := p.start
    let p := p.error message
    let p := p.bump .L_CURLY
    let p := expr_block_contents p
    let p := (p.eat .R_CURLY).2
    some (m.complete p .ERROR)
  else none

/-- C6: under the precondition that the cursor sits on an opening brace,
`error_block` records the message, consumes the opening brace, runs the
interior grammar, consumes a closing brace exactly when the interior
grammar stops on one (tolerating its absence), and wraps the whole
region — the error annotation, both braces and the interior — in exactly
one error-kind node; parsing resumes immediately after the closing brace
(or where the interior grammar stopped, at end of input), with no other
state change. -/
theorem error_block_wraps (expr_block_contents : Parser → Parser)
    (p : Parser) (message : String)
    (hb : p.at' .L_CURLY = true)
    (htok : ∀ q, (expr_block_contents q).tokens = q.tokens)
    (hev : ∀ q, ∃ d, (expr_block_contents q).events = q.events ++ d ∧
      balanced d = true) :
    ∃ q d,
      error_block expr_block_contents p message = some q ∧
      balanced d = true ∧
      q.tokens = p.tokens ∧
      (if (expr_block_contents (error_block_inner p message)).at' .R_CURLY =
          true then
        q.events = p.events ++ Event.start (some .ERROR) ::
          Event.error message :: Event.token .L_CURLY ::
            (d ++ [Event.token .R_CURLY, Event.finish]) ∧
        q.pos = (expr_block_contents (error_block_inner p message)).pos + 1
       else
        q.events = p.events ++ Event.start (some .ERROR) ::
          Event.error message :: Event.token .L_CURLY ::
            (d ++ [Event.finish]) ∧
        q.pos = (expr_block_contents (error_block_inner p message)).pos) := by
  obtain ⟨d, hd, hbal⟩ := hev (error_block_inner p message)
  have htokw : (expr_block_contents (error_block_inner p message)).tokens =
      p.tokens := htok _
  simp only [error_block_inner, Parser.start, Parser.error, Parser.bump,
    List.append_assoc, List.cons_append, List.singleton_append, List.nil_append]
    at hd htokw
  unfold error_block
  rw [if_pos hb]
  simp only [error_block_inner, Parser.start, Parser.error, Parser.bump,
    List.append_assoc, List.cons_append, List.singleton_append,
    List.nil_append]
  by_cases hR : (expr_block_contents (error_block_inner p message)).at'
      .R_CURLY = true
  all_goals
    simp only [error_block_inner, Parser.start, Parser.error, Parser.bump,
      List.append_assoc, List.cons_append, List.singleton_append,
      List.nil_append] at hR
  · refine ⟨_, d, rfl, hbal, ?_, ?_⟩
    · simp [Parser.eat, hR, Marker.complete, Parser.bump, htokw]
    · rw [if_pos hR]
      refine ⟨?_, ?_⟩
      · simp [Parser.eat, hR, Marker.complete, Parser.bump, hd,
          list_set_append_length]
      · simp [Parser.eat, hR, Marker.complete, Parser.bump]
  · refine ⟨_, d, rfl, hbal, ?_, ?_⟩
    · simp [Parser.eat, hR, Marker.complete, htokw]
    · rw [if_neg hR]
      refine ⟨?_, ?_⟩
      · simp [Parser.eat, hR, Marker.complete, hd, list_set_append_length]
      · simp [Parser.eat, hR, Marker.complete]

/-- Witness for C6: a brace pair with an empty interior, the interior
grammar instantiated by the identity rule. -/
theorem error_block_wraps_witness :
    ∃ q d,
      error_block (fun r => r) ⟨[.L_CURLY, .R_CURLY], 0, []⟩ "expected an item"
        = some q ∧
      balanced d = true ∧
      q.tokens = ([.L_CURLY, .R_CURLY] : List SyntaxKind) ∧
      (if (error_block_inner ⟨[.L_CURLY, .R_CURLY], 0, []⟩
            "expected an item").at' .R_CURLY = true then
        q.events = Event.start (some .ERROR) ::
          Event.error "expected an item" :: Event.token .L_CURLY ::
            (d ++ [Event.token .R_CURLY, Event.finish]) ∧
        q.pos = (error_block_inner ⟨[.L_CURLY, .R_CURLY], 0, []⟩
            "expected an item").pos + 1
       else
        q.events = Event.start (some .ERROR) ::
          Event.error "expected an item" :: Event.token .L_CURLY ::
            (d ++ [Event.finish]) ∧
        q.pos = (error_block_inner ⟨[.L_CURLY, .R_CURLY], 0, []⟩
            "expected an item").pos) :=
  error_block_wraps (fun r => r) ⟨[.L_CURLY, .R_CURLY], 0, []⟩
    "expected an item" (by decide) (fun q => rfl)
    (fun q => ⟨[], (List.append_nil _).symm, rfl⟩)

/-- Modelled from the spec: the mode parameter of the opaque
`expressions::stmt` rule; the call sites in `grammar.rs` use the `No` and
`Optional` variants. -/
inductive StmtWithSemi
  | No
  | Optional
  deriving DecidableEq, Repr

namespace entry

/-! The fragment entries of `grammar.rs` lines 50-85 (the source names
this submodule after the term "prefix entry"; that word is reserved
here).  Each opaque grammar rule an entry delegates to is a parameter. -/
namespace fragment

def vis (use_path : Parser → Parser) (p : Parser) : Parser :=
  (opt_visibility use_path p false).2

def block (block_expr : Parser → Parser) (p : Parser) : Parser :=
  block_expr p

def stmt (stmtRule : Parser → StmtWithSemi → Bool → Parser) (p : Parser) :
    Parser :=
  stmtRule p .No true

def pat (pattern_single : Parser → Parser) (p : Parser) : Parser :=
  pattern_single p

def ty (type_ : Parser → Parser) (p : Parser) : Parser :=
  type_ p

def expr (exprRule : Parser → Parser) (p : Parser) : Parser :=
  exprRule p

def path (type_path : Parser → Parser) (p : Parser) : Parser :=
  type_path p

def item ( item_or_macro : Parser → Bool → Parser) (p : Parser) : Parser :=
  item_or_macro p true

def meta_item (metaRule : Parser → Parser) (p : Parser) : Parser :=
  metaRule p

end fragment

/-! The unit entries of `grammar.rs` lines 87-117.  `items::mod_contents`
and `expressions::stmt` are opaque parameters; the `while !p.at(EOF)`
loop of `macro_stmts` is rendered fuel-indexed, and the claimed theorem
shows that any fuel of at least the remaining token count reaches
end-of-input. -/
namespace top

def source_file ( mod_contents : Parser → Bool → Parser) (p : Parser) :
    Parser :=
  let (m, p) := p.start
  let p := (p.eat .SHEBANG).2
  let p := mod_contents p false
  m.complete p .SOURCE_FILE

def macro_stmts_loop (stmtRule : Parser → StmtWithSemi → Bool → Parser) :
    Nat → Parser → Parser
  | 0, p => p
  | fuel + 1, p =>
    if p.at' .EOF then p
    else if p.at' .SEMICOLON then
      macro_stmts_loop stmtRule fuel (p.bump .SEMICOLON)
    else
      macro_stmts_loop stmtRule fuel (stmtRule p .Optional true)

def macro_stmts (stmtRule : Parser → StmtWithSemi → Bool → Parser)
    (fuel : Nat) (p : Parser) : Parser :=
  let (m, p) := p.start
  let p := macro_stmts_loop stmtRule fuel p
  m.complete p .MACRO_STMTS

def macro_items ( mod_contents : Parser → Bool → Parser) (p : Parser) :
    Parser :=
  let (m, p) := p.start
  let p := mod_contents p false
  m.complete p .MACRO_ITEMS

end top

end entry

/-- A cursor standing at or beyond the end of the token sequence reads
the end-of-input sentinel. -/
theorem at_eof_of_len_le (p : Parser) (h : p.tokens.length ≤ p.pos) :
    p.at' .EOF = true := by
  have h0 : p.tokens[p.pos]? = none := List.getElem?_eq_none h
  simp [Parser.at', Parser.nth_at, Parser.nth, List.getD, h0]

/-- Contrapositive: away from end-of-input the cursor is in range. -/
theorem lt_len_of_not_at_eof (p : Parser) (h : ¬ p.at' .EOF = true) :
    p.pos < p.tokens.length := by
  by_contra hc
  push_neg at hc
  exact h (at_eof_of_len_le p hc)

/-- The `macro_stmts` loop invariant: given a statement rule that (away
from end-of-input) preserves the token sequence, makes progress, and
appends a balanced event segment, any fuel of at least the remaining
token count drives the loop to end-of-input while appending a balanced
event segment of its own. -/
theorem macro_stmts_loop_spec (stmtRule : Parser → StmtWithSemi → Bool → Parser)
    (hs : ∀ q, ¬ q.at' .EOF = true →
      (stmtRule q .Optional true).tokens = q.tokens ∧
      q.pos < (stmtRule q .Optional true).pos ∧
      ∃ d, (stmtRule q .Optional true).events = q.events ++ d ∧
        balanced d = true) :
    ∀ (fuel : Nat) (p : Parser), p.tokens.length - p.pos ≤ fuel →
      (entry.top.macro_stmts_loop stmtRule fuel p).tokens = p.tokens ∧
      (entry.top.macro_stmts_loop stmtRule fuel p).at' .EOF = true ∧
      ∃ d, (entry.top.macro_stmts_loop stmtRule fuel p).events =
        p.events ++ d ∧ balanced d = true := by
  intro fuel
  induction fuel with
  | zero =>
    intro p hp
    have he : p.at' .EOF = true := at_eof_of_len_le p (by omega)
    exact ⟨rfl, he, [], (List.append_nil _).symm, rfl⟩
  | succ fuel ih =>
    intro p hp
    by_cases hEOF : p.at' .EOF = true
    · rw [show entry.top.macro_stmts_loop stmtRule (fuel + 1) p = p from by
        simp [entry.top.macro_stmts_loop, hEOF]]
      exact ⟨rfl, hEOF, [], (List.append_nil _).symm, rfl⟩
    · have hlt := lt_len_of_not_at_eof p hEOF
      by_cases hSemi : p.at' .SEMICOLON = true
      · obtain ⟨ht, he, d, hd, hbal⟩ :=
          ih (p.bump .SEMICOLON) (by simp [Parser.bump]; omega)
        simp only [entry.top.macro_stmts_loop, if_neg hEOF, if_pos hSemi]
        refine ⟨ht, he, Event.token .SEMICOLON :: d, ?_, ?_⟩
        · rw [hd]
          simp [Parser.bump]
        · rw [balanced_cons_token]
          exact hbal
      · obtain ⟨ht1, hlt1, d1, hd1, hbal1⟩ := hs p hEOF
        obtain ⟨ht, he, d, hd, hbal⟩ :=
          ih (stmtRule p .Optional true) (by rw [ht1]; omega)
        simp only [entry.top.macro_stmts_loop, if_neg hEOF, if_neg hSemi]
        refine ⟨ht.trans ht1, he, d1 ++ d, ?_, balanced_append _ _ hbal1 hbal⟩
        rw [hd, hd1, List.append_assoc]

/-- `source_file` wraps an optional leading interpreter-directive token
and the whole opaque item sequence in exactly one SOURCE_FILE root node
and ends at end-of-input. -/
theorem source_file_spec ( mod_contents : Parser → Bool → Parser) (p : Parser)
    (hg : ∀ q b, ( mod_contents q b).tokens = q.tokens ∧
      ( mod_contents q b).at' .EOF = true ∧
      ∃ d, ( mod_contents q b).events = q.events ++ d ∧ balanced d = true) :
    (entry.top.source_file mod_contents p).tokens = p.tokens ∧
    (entry.top.source_file mod_contents p).at' .EOF = true ∧
    ∃ d, balanced d = true ∧
      (entry.top.source_file mod_contents p).events =
        p.events ++ Event.start (some .SOURCE_FILE) ::
          ((if p.at' .SHEBANG = true then [Event.token .SHEBANG] else []) ++
            d ++ [Event.finish]) := by
  unfold entry.top.source_file
  by_cases hsb : p.at' .SHEBANG = true
  · have hsb' : ((p.start).2).at' .SHEBANG = true := hsb
    obtain ⟨ht, he, d, hd, hbal⟩ := hg (((p.start).2).bump .SHEBANG) false
    simp only [Parser.eat, if_pos hsb']
    refine ⟨?_, he, d, hbal, ?_⟩
    · simpa [Marker.complete, Parser.start, Parser.bump] using ht
    · rw [if_pos hsb]
      simp only [Parser.start, Parser.bump, List.append_assoc,
        List.cons_append, List.singleton_append, List.nil_append] at hd
      simp [Marker.complete, hd, Parser.start, Parser.bump,
        list_set_append_length]
  · have hsb' : ¬ ((p.start).2).at' .SHEBANG = true := hsb
    obtain ⟨ht, he, d, hd, hbal⟩ := hg ((p.start).2) false
    simp only [Parser.eat, if_neg hsb']
    refine ⟨?_, he, d, hbal, ?_⟩
    · simpa [Marker.complete, Parser.start] using ht
    · rw [if_neg hsb]
      simp only [Parser.start, List.append_assoc, List.cons_append,
        List.singleton_append, List.nil_append] at hd
      simp [Marker.complete, hd, Parser.start, list_set_append_length]

/-- `macro_items` wraps the whole opaque item sequence in exactly one
MACRO_ITEMS root node and ends at end-of-input. -/
theorem macro_items_spec ( mod_contents : Parser → Bool → Parser) (p : Parser)
    (hg : ∀ q b, ( mod_contents q b).tokens = q.tokens ∧
      ( mod_contents q b).at' .EOF = true ∧
      ∃ d, ( mod_contents q b).events = q.events ++ d ∧ balanced d = true) :
    (entry.top.macro_items mod_contents p).tokens = p.tokens ∧
    (entry.top.macro_items mod_contents p).at' .EOF = true ∧
    ∃ d, balanced d = true ∧
      (entry.top.macro_items mod_contents p).events =
        p.events ++ Event.start (some .MACRO_ITEMS) :: (d ++ [Event.finish])
    := by
  unfold entry.top.macro_items
  obtain ⟨ht, he, d, hd, hbal⟩ := hg ((p.start).2) false
  refine ⟨?_, he, d, hbal, ?_⟩
  · simpa [Marker.complete, Parser.start] using ht
  · simp only [Parser.start, List.append_assoc, List.cons_append,
      List.singleton_append, List.nil_append] at hd
    simp [Marker.complete, hd, Parser.start, list_set_append_length]

/-- `macro_stmts` wraps the statement sequence in exactly one MACRO_STMTS
root node and ends at end-of-input. -/
theorem macro_stmts_spec (stmtRule : Parser → StmtWithSemi → Bool → Parser)
    (fuel : Nat) (p : Parser)
    (hs : ∀ q, ¬ q.at' .EOF = true →
      (stmtRule q .Optional true).tokens = q.tokens ∧
      q.pos < (stmtRule q .Optional true).pos ∧
      ∃ d, (stmtRule q .Optional true).events = q.events ++ d ∧
        balanced d = true)
    (hfuel : p.tokens.length - p.pos ≤ fuel) :
    (entry.top.macro_stmts stmtRule fuel p).tokens = p.tokens ∧
    (entry.top.macro_stmts stmtRule fuel p).at' .EOF = true ∧
    ∃ d, balanced d = true ∧
      (entry.top.macro_stmts stmtRule fuel p).events =
        p.events ++ Event.start (some .MACRO_STMTS) :: (d ++ [Event.finish])
    := by
  obtain ⟨ht, he, d, hd, hbal⟩ :=
    macro_stmts_loop_spec stmtRule hs fuel ((p.start).2) hfuel
  unfold entry.top.macro_stmts
  refine ⟨?_, he, d, hbal, ?_⟩
  · simpa [Marker.complete, Parser.start] using ht
  · simp only [Parser.start, List.append_assoc, List.cons_append,
      List.singleton_append, List.nil_append] at hd
    simp [Marker.complete, hd, Parser.start, list_set_append_length]

/-- One loop step of `macro_stmts` on a stray statement separator: the
separator token is consumed directly (a bare consume-token event, no
node, no statement rule invocation). -/
theorem macro_stmts_loop_semi (stmtRule : Parser → StmtWithSemi → Bool → Parser)
    (fuel : Nat) (q : Parser) (hq : q.at' .SEMICOLON = true) :
    entry.top.macro_stmts_loop stmtRule (fuel + 1) q =
      entry.top.macro_stmts_loop stmtRule fuel (q.bump .SEMICOLON) := by
  have hq' : q.nth 0 = .SEMICOLON := by
    simpa [Parser.at', Parser.nth_at] using hq
  have hEOF : q.at' .EOF = false := by
    simp [Parser.at', Parser.nth_at, hq']
  simp [entry.top.macro_stmts_loop, hEOF, hq]

/-- C7: every unit entry wraps everything it parses in exactly one
completed root node spanning all consumed tokens and runs until
end-of-input; `source_file` additionally consumes one leading
interpreter-directive token iff it is present, and `macro_stmts` directly
consumes a stray statement-separator token encountered between
statements (one loop step bumps the separator itself, invoking no
statement rule).  The opaque `mod_contents` and `stmt` rules are
constrained by the contract the specification fixes for grammar rules;
the fuel bound renders the source's `while !p.at(EOF)` loop. -/
theorem unit_entries_spec :
    (∀ ( mod_contents : Parser → Bool → Parser) (p : Parser),
      (∀ q b, ( mod_contents q b).tokens = q.tokens ∧
        ( mod_contents q b).at' .EOF = true ∧
        ∃ d, ( mod_contents q b).events = q.events ++ d ∧ balanced d = true) →
      (entry.top.source_file mod_contents p).tokens = p.tokens ∧
      (entry.top.source_file mod_contents p).at' .EOF = true ∧
      ∃ d, balanced d = true ∧
        (entry.top.source_file mod_contents p).events =
          p.events ++ Event.start (some .SOURCE_FILE) ::
            ((if p.at' .SHEBANG = true then [Event.token .SHEBANG] else []) ++
              d ++ [Event.finish])) ∧
    (∀ (stmtRule : Parser → StmtWithSemi → Bool → Parser) (fuel : Nat)
        (p : Parser),
      (∀ q, ¬ q.at' .EOF = true →
        (stmtRule q .Optional true).tokens = q.tokens ∧
        q.pos < (stmtRule q .Optional true).pos ∧
        ∃ d, (stmtRule q .Optional true).events = q.events ++ d ∧
          balanced d = true) →
      p.tokens.length - p.pos ≤ fuel →
      (entry.top.macro_stmts stmtRule fuel p).tokens = p.tokens ∧
      (entry.top.macro_stmts stmtRule fuel p).at' .EOF = true ∧
      ∃ d, balanced d = true ∧
        (entry.top.macro_stmts stmtRule fuel p).events =
          p.events ++ Event.start (some .MACRO_STMTS) ::
            (d ++ [Event.finish])) ∧
    (∀ (stmtRule : Parser → StmtWithSemi → Bool → Parser) (fuel : Nat)
        (q : Parser), q.at' .SEMICOLON = true →
      entry.top.macro_stmts_loop stmtRule (fuel + 1) q =
        entry.top.macro_stmts_loop stmtRule fuel (q.bump .SEMICOLON)) ∧
    (∀ ( mod_contents : Parser → Bool → Parser) (p : Parser),
      (∀ q b, ( mod_contents q b).tokens = q.tokens ∧
        ( mod_contents q b).at' .EOF = true ∧
        ∃ d, ( mod_contents q b).events = q.events ++ d ∧ balanced d = true) →
      (entry.top.macro_items mod_contents p).tokens = p.tokens ∧
      (entry.top.macro_items mod_contents p).at' .EOF = true ∧
      ∃ d, balanced d = true ∧
        (entry.top.macro_items mod_contents p).events =
          p.events ++ Event.start (some .MACRO_ITEMS) ::
            (d ++ [Event.finish])) :=
  ⟨source_file_spec,
   fun stmtRule fuel p hs hfuel => macro_stmts_spec stmtRule fuel p hs hfuel,
   macro_stmts_loop_semi,
   macro_items_spec⟩

/-- Witness for C7: `source_file` and `macro_items` run with a
skip-to-the-end item rule, `macro_stmts` with a bump-one-token statement
rule on the stream `; IDENT` (the stray separator is consumed by the
loop itself). -/
theorem unit_entries_spec_witness :
    ((entry.top.source_file (fun q _ => { q with pos := q.tokens.length })
        ⟨[.SHEBANG, .IDENT], 0, []⟩).tokens = [.SHEBANG, .IDENT] ∧
     (entry.top.source_file (fun q _ => { q with pos := q.tokens.length })
        ⟨[.SHEBANG, .IDENT], 0, []⟩).at' .EOF = true ∧
     ∃ d, balanced d = true ∧
       (entry.top.source_file (fun q _ => { q with pos := q.tokens.length })
          ⟨[.SHEBANG, .IDENT], 0, []⟩).events =
         Event.start (some .SOURCE_FILE) ::
           ((if (⟨[.SHEBANG, .IDENT], 0, []⟩ : Parser).at' .SHEBANG = true
             then [Event.token .SHEBANG] else []) ++ d ++ [Event.finish])) ∧
    ((entry.top.macro_stmts
        (fun q _ _ => { q with
          pos := q.pos + 1,
          events := q.events ++ [Event.token .IDENT] }) 2
        ⟨[.SEMICOLON, .IDENT], 0, []⟩).tokens = [.SEMICOLON, .IDENT] ∧
     (entry.top.macro_stmts
        (fun q _ _ => { q with
          pos := q.pos + 1,
          events := q.events ++ [Event.token .IDENT] }) 2
        ⟨[.SEMICOLON, .IDENT], 0, []⟩).at' .EOF = true ∧
     ∃ d, balanced d = true ∧
       (entry.top.macro_stmts
          (fun q _ _ => { q with
            pos := q.pos + 1,
            events := q.events ++ [Event.token .IDENT] }) 2
          ⟨[.SEMICOLON, .IDENT], 0, []⟩).events =
         Event.start (some .MACRO_STMTS) :: (d ++ [Event.finish])) ∧
    (entry.top.macro_stmts_loop
        (fun q _ _ => { q with
          pos := q.pos + 1,
          events := q.events ++ [Event.token .IDENT] }) 1
        ⟨[.SEMICOLON, .IDENT], 0, []⟩ =
      entry.top.macro_stmts_loop
        (fun q _ _ => { q with
          pos := q.pos + 1,
          events := q.events ++ [Event.token .IDENT] }) 0
        ((⟨[.SEMICOLON, .IDENT], 0, []⟩ : Parser).bump .SEMICOLON)) ∧
    ((entry.top.macro_items (fun q _ => { q with pos := q.tokens.length })
        ⟨[.IDENT], 0, []⟩).tokens = [.IDENT] ∧
     (entry.top.macro_items (fun q _ => { q with pos := q.tokens.length })
        ⟨[.IDENT], 0, []⟩).at' .EOF = true ∧
     ∃ d, balanced d = true ∧
       (entry.top.macro_items (fun q _ => { q with pos := q.tokens.length })
          ⟨[.IDENT], 0, []⟩).events =
         Event.start (some .MACRO_ITEMS) :: (d ++ [Event.finish])) :=
  ⟨unit_entries_spec.1 (fun q _ => { q with pos := q.tokens.length })
      ⟨[.SHEBANG, .IDENT], 0, []⟩
      (fun q b => ⟨rfl, at_eof_of_len_le _ (Nat.le_refl _),
        ⟨[], (List.append_nil _).symm, rfl⟩⟩),
   unit_entries_spec.2.1
      (fun q _ _ => { q with
        pos := q.pos + 1,
        events := q.events ++ [Event.token .IDENT] }) 2
      ⟨[.SEMICOLON, .IDENT], 0, []⟩
      (fun q hq => ⟨rfl, Nat.lt_succ_self _,
        ⟨[Event.token .IDENT], rfl, rfl⟩⟩)
      (by decide),
   unit_entries_spec.2.2.1
      (fun q _ _ => { q with
        pos := q.pos + 1,
        events := q.events ++ [Event.token .IDENT] }) 0
      ⟨[.SEMICOLON, .IDENT], 0, []⟩ (by decide),
   unit_entries_spec.2.2.2 (fun q _ => { q with pos := q.tokens.length })
      ⟨[.IDENT], 0, []⟩
      (fun q b => ⟨rfl, at_eof_of_len_le _ (Nat.le_refl _),
        ⟨[], (List.append_nil _).symm, rfl⟩⟩)⟩

/-- C8: every fragment entry is observationally the single grammar rule
it delegates to — the entry opens no node, completes no node and
consumes no token beyond the delegated rule: its result state is exactly
the delegated rule's result state (for the visibility entry, the rule
invoked with `in_tuple_field = false`; for the statement entry, the
no-trailing-separator mode; for the item entry, the top-level flag). -/
theorem fragment_entries_delegate :
    (∀ (use_path : Parser → Parser) (p : Parser),
      entry.fragment.vis use_path p = (opt_visibility use_path p false).2) ∧
    (∀ (block_expr : Parser → Parser) (p : Parser),
      entry.fragment.block block_expr p = block_expr p) ∧
    (∀ (stmtRule : Parser → StmtWithSemi → Bool → Parser) (p : Parser),
      entry.fragment.stmt stmtRule p = stmtRule p .No true) ∧
    (∀ (pattern_single : Parser → Parser) (p : Parser),
      entry.fragment.pat pattern_single p = pattern_single p) ∧
    (∀ (type_ : Parser → Parser) (p : Parser),
      entry.fragment.ty type_ p = type_ p) ∧
    (∀ (exprRule : Parser → Parser) (p : Parser),
      entry.fragment.expr exprRule p = exprRule p) ∧
    (∀ (type_path : Parser → Parser) (p : Parser),
      entry.fragment.path type_path p = type_path p) ∧
    (∀ ( item_or_macro : Parser → Bool → Parser) (p : Parser),
      entry.fragment.item item_or_macro p = item_or_macro p true) ∧
    (∀ (metaRule : Parser → Parser) (p : Parser),
      entry.fragment.meta_item metaRule p = metaRule p) :=
  ⟨fun _ _ => rfl, fun _ _ => rfl, fun _ _ => rfl, fun _ _ => rfl,
   fun _ _ => rfl, fun _ _ => rfl, fun _ _ => rfl, fun _ _ => rfl,
   fun _ _ => rfl⟩
